import Mathlib

/-!
Shallow embedding of the `devicemodel` package of cypacky-io/device-parser
(the root-package implementation: `Lookup`, `LookupDetailed`,
`LookupWithPlatform`, `normalizePlatform`, `lookupByPrefixDetailed`,
`readDeviceMap`, `firstModelName`, `readUpstreamMeta`, `loadAll`).

Go maps `map[string]string` are modelled as association lists
(`List (String × String)`); indexing `m[k]` returns the zero value `""`
when the key is absent, exactly as in Go.  The per-family JSON documents
and the metadata document are inputs of the loader, modelled as `Option`
values (`none` = unreadable or unparsable document).
-/

namespace DeviceModel

/-- Go's `unicode.IsSpace`: the Unicode White_Space property
(U+0009–U+000D, U+0020, U+0085, U+00A0, U+1680, U+2000–U+200A,
U+2028, U+2029, U+202F, U+205F, U+3000). -/
def goIsSpace (c : Char) : Bool :=
  let n := c.toNat
  (9 ≤ n && n ≤ 13) || n == 32 || n == 0x85 || n == 0xA0 || n == 0x1680 ||
    (0x2000 ≤ n && n ≤ 0x200A) || n == 0x2028 || n == 0x2029 ||
    n == 0x202F || n == 0x205F || n == 0x3000

/-- Go's `strings.TrimSpace`: drop leading and trailing white space. -/
def trimSpace (s : String) : String :=
  ⟨(((s.data.dropWhile goIsSpace).reverse.dropWhile goIsSpace).reverse)⟩

/-- ASCII fragment of Go's `strings.ToLower` (per-rune lowering; every
recognized platform tag is ASCII). -/
def goToLowerChar (c : Char) : Char :=
  if 'A' ≤ c ∧ c ≤ 'Z' then Char.ofNat (c.toNat + 32) else c

/-- Go's `strings.ToLower`, restricted to the ASCII case mapping. -/
def goToLower (s : String) : String :=
  ⟨s.data.map goToLowerChar⟩

/-- Go's `strings.HasPrefix` (byte prefix; on valid UTF-8 this is
character-list prefix). -/
def goStartsWith (s p : String) : Bool :=
  p.data.isPrefixOf s.data

/-- A Go `map[string]string`, modelled as an association list. -/
abbrev DMap := List (String × String)

/-- Go map indexing `m[k]`: the stored value, or the zero value `""`
when the key is absent. -/
def mapGet (m : DMap) (k : String) : String :=
  match m.find? (fun p => p.1 == k) with
  | some p => p.2
  | none => ""

/-- Key membership of a Go map (`_, ok := m[k]`). -/
def containsKey (m : DMap) (k : String) : Bool :=
  (m.find? (fun p => p.1 == k)).isSome

/-- The five loaded per-family mappings
(`iosMap`, `macosMap`, `tvosMap`, `watchosMap`, `visionosMap`). -/
structure Maps where
  iosMap : DMap
  macosMap : DMap
  tvosMap : DMap
  watchosMap : DMap
  visionosMap : DMap
deriving DecidableEq, Repr

def PlatformIOS : String := "ios"
def PlatformIPADOS : String := "ipados"
def PlatformMACOS : String := "macos"
def PlatformTVOS : String := "tvos"
def PlatformWatchOS : String := "watchos"
def PlatformVisionOS : String := "visionos"

/-- The detailed lookup result `LookupDetail{Platform, Name}`. -/
structure LookupDetail where
  Platform : String
  Name : String
deriving DecidableEq, Repr

/-- Source `lookupByPrefixDetailed`: ordered literal-prefix
dispatch, returning on the first match with that family's map value. -/
def lookupByPrefixDetailed (m : Maps) (code : String) : LookupDetail :=
  if goStartsWith code "iPhone" || goStartsWith code "iPod" then
    ⟨PlatformIOS, mapGet m.iosMap code⟩
  else if goStartsWith code "iPad" then
    ⟨PlatformIPADOS, mapGet m.iosMap code⟩
  else if goStartsWith code "Watch" then
    ⟨PlatformWatchOS, mapGet m.watchosMap code⟩
  else if goStartsWith code "AppleTV" then
    ⟨PlatformTVOS, mapGet m.tvosMap code⟩
  else if goStartsWith code "RealityDevice" then
    ⟨PlatformVisionOS, mapGet m.visionosMap code⟩
  else if goStartsWith code "iMac" || goStartsWith code "Mac" then
    ⟨PlatformMACOS, mapGet m.macosMap code⟩
  else
    ⟨"", ""⟩

/-- Source `LookupDetailed`: trim; empty → empty result; prefix
classifier first; otherwise fallback scan ios, macos, tvos, watchos,
visionos; empty result if nothing matches. -/
def LookupDetailed (m : Maps) (code : String) : LookupDetail :=
  let c := trimSpace code
  if c = "" then ⟨"", ""⟩
  else
    let d := lookupByPrefixDetailed m c
    if d.Name ≠ "" then d
    else if mapGet m.iosMap c ≠ "" then ⟨PlatformIOS, mapGet m.iosMap c⟩
    else if mapGet m.macosMap c ≠ "" then ⟨PlatformMACOS, mapGet m.macosMap c⟩
    else if mapGet m.tvosMap c ≠ "" then ⟨PlatformTVOS, mapGet m.tvosMap c⟩
    else if mapGet m.watchosMap c ≠ "" then ⟨PlatformWatchOS, mapGet m.watchosMap c⟩
    else if mapGet m.visionosMap c ≠ "" then ⟨PlatformVisionOS, mapGet m.visionosMap c⟩
    else ⟨"", ""⟩

/-- Source `Lookup`. -/
def Lookup (m : Maps) (code : String) : String :=
  (LookupDetailed m code).Name

/-- Source `normalizePlatform`:
`strings.TrimSpace(strings.ToLower(platform))`. -/
def normalizePlatform (platform : String) : String :=
  trimSpace (goToLower platform)

/-- Source `LookupWithPlatform`: trim the code (empty → `""`);
empty normalized platform delegates to `Lookup`; otherwise a strict
switch over the six recognized tags (the tablet tag reads `iosMap`),
with default `""`. -/
def LookupWithPlatform (m : Maps) (platform code : String) : String :=
  let c := trimSpace code
  if c = "" then ""
  else
    let p := normalizePlatform platform
    if p = "" then Lookup m c
    else if p = PlatformIOS then mapGet m.iosMap c
    else if p = PlatformIPADOS then mapGet m.iosMap c
    else if p = PlatformMACOS then mapGet m.macosMap c
    else if p = PlatformTVOS then mapGet m.tvosMap c
    else if p = PlatformWatchOS then mapGet m.watchosMap c
    else if p = PlatformVisionOS then mapGet m.visionosMap c
    else ""

/-! ### Data loader -/

/-- The shape of a decoded JSON value as the loader's `any` sees it:
a string, an array, or anything else (number, bool, null, object). -/
inductive JValue where
  | jstr : String → JValue
  | jarr : List JValue → JValue
  | jother : JValue

/-- The array scan inside `firstModelName`: the first element that is a
string and non-empty after trimming; non-string elements are skipped. -/
def firstNameInList : List JValue → String
  | [] => ""
  | JValue.jstr s :: rest =>
      let t := trimSpace s
      if t ≠ "" then t else firstNameInList rest
  | _ :: rest => firstNameInList rest

/-- Source `firstModelName`: a single string is trimmed; an
array is scanned in order for the first non-empty trimmed string;
anything else yields `""`. -/
def firstModelName : JValue → String
  | JValue.jstr s => trimSpace s
  | JValue.jarr items => firstNameInList items
  | JValue.jother => ""

/-- Source `readDeviceMap`.  The raw document is `none` when
the file is unreadable or unparsable (both return the empty map in Go);
otherwise it is the decoded key/value sequence.  Entries whose resolved
model name is empty are dropped. -/
def readDeviceMap (doc : Option (List (String × JValue))) : DMap :=
  match doc with
  | none => []
  | some raw =>
      raw.filterMap fun kv =>
        let n := firstModelName kv.2
        if n ≠ "" then some (kv.1, n) else none

/-- The `upstreamMeta` record. -/
structure UpstreamMeta where
  UpstreamRepo : String
  UpstreamRef : String
  UpstreamSHA : String
  SyncedAtUTC : String
deriving DecidableEq, Repr

/-- Source `readUpstreamMeta`: an unreadable or unparsable
metadata document (`none`) yields the zero record (all fields empty). -/
def readUpstreamMeta (doc : Option UpstreamMeta) : UpstreamMeta :=
  match doc with
  | none => ⟨"", "", "", ""⟩
  | some m => m

/-- The raw documents the loader reads: five per-family JSON documents
and the metadata document (`none` = unreadable/unparsable). -/
structure RawDocs where
  iosDoc : Option (List (String × JValue))
  macDoc : Option (List (String × JValue))
  tvDoc : Option (List (String × JValue))
  watchDoc : Option (List (String × JValue))
  visionDoc : Option (List (String × JValue))
  metaDoc : Option UpstreamMeta

/-- The state populated by the load body: the five family mappings and
the metadata record. -/
structure LoadedState where
  maps : Maps
  meta : UpstreamMeta
deriving DecidableEq, Repr

/-- The body of `loadAll` from the source (the function run under
`loadOnce.Do`): each family mapping is read from its own document, the
metadata from its document. -/
def loadAll (d : RawDocs) : LoadedState :=
  { maps :=
      { iosMap := readDeviceMap d.iosDoc
        macosMap := readDeviceMap d.macDoc
        tvosMap := readDeviceMap d.tvDoc
        watchosMap := readDeviceMap d.watchDoc
        visionosMap := readDeviceMap d.visionDoc }
    meta := readUpstreamMeta d.metaDoc }

/-! ### Concrete sample data (used by witnesses) -/

/-- A small concrete family-map state used to evaluate the lookup
functions at concrete inputs. -/
def sampleMaps : Maps :=
  { iosMap := [("iPhone18,1", "iPhone 17 Pro"),
               ("iPad16,3", "iPad Air 11-inch (M3)"),
               ("XR1,1", "Legacy Phone")]
    macosMap := [("iMac11,2", "iMac (21.5-inch, Mid 2010)")]
    tvosMap := [("AppleTV14,1", "Apple TV 4K (3rd generation)")]
    watchosMap := [("Watch1,1", "Apple Watch (1st generation)")]
    visionosMap := [("RealityDevice14,1", "Apple Vision Pro")] }

/-! ### Helper lemmas -/

lemma dropWhile_dropWhile {α : Type} (p : α → Bool) (l : List α) :
    (l.dropWhile p).dropWhile p = l.dropWhile p := by
  induction l with
  | nil => rfl
  | cons a t ih =>
    by_cases h : p a
    · simp [List.dropWhile_cons, h, ih]
    · simp [List.dropWhile_cons, h]

lemma dropWhile_eq_self_of_append {α : Type} (p : α → Bool) (xs ys : List α)
    (h : (xs ++ ys).dropWhile p = xs ++ ys) : xs.dropWhile p = xs := by
  cases xs with
  | nil => rfl
  | cons a t =>
    rw [List.cons_append, List.dropWhile_cons] at h
    by_cases hp : p a
    · exfalso
      rw [if_pos hp] at h
      have hlen := (List.dropWhile_sublist (l := t ++ ys) p).length_le
      rw [h] at hlen
      simp at hlen
    · rw [List.dropWhile_cons, if_neg hp]

lemma trimList_idem {α : Type} (p : α → Bool) (l : List α) :
    ((((((l.dropWhile p).reverse.dropWhile p).reverse).dropWhile p).reverse.dropWhile p).reverse) =
      ((l.dropWhile p).reverse.dropWhile p).reverse := by
  have hA : (((l.dropWhile p).reverse.dropWhile p).reverse).dropWhile p =
      ((l.dropWhile p).reverse.dropWhile p).reverse := by
    have hsplit : (l.dropWhile p).reverse.takeWhile p ++ (l.dropWhile p).reverse.dropWhile p =
        (l.dropWhile p).reverse := List.takeWhile_append_dropWhile p (l.dropWhile p).reverse
    have hl1eq : l.dropWhile p =
        ((l.dropWhile p).reverse.dropWhile p).reverse ++
          ((l.dropWhile p).reverse.takeWhile p).reverse := by
      have h2 := congrArg List.reverse hsplit
      rw [List.reverse_append, List.reverse_reverse] at h2
      exact h2.symm
    have hfix : (l.dropWhile p).dropWhile p = l.dropWhile p := dropWhile_dropWhile p l
    rw [hl1eq] at hfix
    exact dropWhile_eq_self_of_append p _ _ hfix
  rw [hA, List.reverse_reverse, dropWhile_dropWhile]

lemma trimSpace_idem (s : String) : trimSpace (trimSpace s) = trimSpace s :=
  congrArg String.mk (trimList_idem goIsSpace s.data)

lemma LookupDetailed_trim (m : Maps) (code : String) :
    LookupDetailed m (trimSpace code) = LookupDetailed m code := by
  unfold LookupDetailed
  rw [trimSpace_idem]

/-! ### Claims -/

/-- C1: when the trimmed-and-lowercased platform token is empty (the
token is empty or whitespace-only), `LookupWithPlatform` delegates
entirely to the auto-detect path and returns exactly `Lookup` of the
identifier, for every identifier. -/
theorem lookupWithPlatform_blank_platform_eq_auto (m : Maps) (platform id : String)
    (h : normalizePlatform platform = "") :
    LookupWithPlatform m platform id = Lookup m id := by
  unfold LookupWithPlatform
  by_cases hc : trimSpace id = ""
  · simp [hc, Lookup, LookupDetailed]
  · simp [hc, h, Lookup, LookupDetailed_trim]

/-- Witness for C1 at a whitespace-only platform token and a matching
identifier. -/
theorem lookupWithPlatform_blank_platform_eq_auto_witness :
    normalizePlatform "  " = "" ∧
      LookupWithPlatform sampleMaps "  " "iPhone18,1" = Lookup sampleMaps "iPhone18,1" :=
  ⟨by decide,
   lookupWithPlatform_blank_platform_eq_auto sampleMaps "  " "iPhone18,1" (by decide)⟩

/-- C4: a non-empty normalized platform token outside the six
recognized family tags makes `LookupWithPlatform` return `""`
unconditionally, for every identifier — no fallback, no
auto-detection. -/
theorem lookupWithPlatform_unrecognized_empty (m : Maps) (platform code : String)
    (h1 : normalizePlatform platform ≠ "")
    (h2 : normalizePlatform platform ∉
      [PlatformIOS, PlatformIPADOS, PlatformMACOS, PlatformTVOS,
        PlatformWatchOS, PlatformVisionOS]) :
    LookupWithPlatform m platform code = "" := by
  unfold LookupWithPlatform
  by_cases hc : trimSpace code = ""
  · simp [hc]
  · simp only [List.mem_cons, List.not_mem_nil, or_false, not_or] at h2
    obtain ⟨n1, n2, n3, n4, n5, n6⟩ := h2
    simp [hc, h1, n1, n2, n3, n4, n5, n6]

/-- Witness for C4: the unrecognized token `"android"` yields `""` even
for an identifier that auto-detection would resolve. -/
theorem lookupWithPlatform_unrecognized_empty_witness :
    normalizePlatform "android" ≠ "" ∧
    normalizePlatform "android" ∉
      [PlatformIOS, PlatformIPADOS, PlatformMACOS, PlatformTVOS,
        PlatformWatchOS, PlatformVisionOS] ∧
    Lookup sampleMaps "iPhone18,1" ≠ "" ∧
    LookupWithPlatform sampleMaps "android" "iPhone18,1" = "" :=
  ⟨by decide, by decide, by decide,
   lookupWithPlatform_unrecognized_empty sampleMaps "android" "iPhone18,1"
     (by decide) (by decide)⟩

/-- C5: the tablet tag `ipados` is a pure alias of the phone tag `ios`
in `LookupWithPlatform`: both read the same backing family mapping, so
the results agree for every identifier. -/
theorem lookupWithPlatform_ipados_eq_ios (m : Maps) (code : String) :
    LookupWithPlatform m PlatformIPADOS code = LookupWithPlatform m PlatformIOS code := by
  unfold LookupWithPlatform
  by_cases hc : trimSpace code = ""
  · simp [hc]
  · simp only [PlatformIOS, PlatformIPADOS, PlatformMACOS, PlatformTVOS,
      PlatformWatchOS, PlatformVisionOS]
    have h1 : normalizePlatform "ipados" = "ipados" := by decide
    have h2 : normalizePlatform "ios" = "ios" := by decide
    simp only [h1, h2]
    simp [hc]

/-- C8: the two fields of a detailed lookup result are jointly empty or
jointly non-empty: a no-match result is `⟨"", ""⟩`, and every match sets
a non-empty platform tag together with a non-empty name. -/
theorem lookupDetailed_fields_joint (m : Maps) (code : String) :
    ((LookupDetailed m code).Platform = "" ∧ (LookupDetailed m code).Name = "") ∨
      ((LookupDetailed m code).Platform ≠ "" ∧ (LookupDetailed m code).Name ≠ "") := by
  unfold LookupDetailed
  by_cases hc : trimSpace code = ""
  · simp [hc]
  · simp only [hc, if_false, ite_false]
    by_cases hd : (lookupByPrefixDetailed m (trimSpace code)).Name ≠ ""
    · have hplat : (lookupByPrefixDetailed m (trimSpace code)).Platform ≠ "" := by
        unfold lookupByPrefixDetailed at hd ⊢
        repeat' split at hd
        all_goals simp_all [PlatformIOS, PlatformIPADOS, PlatformMACOS,
          PlatformTVOS, PlatformWatchOS, PlatformVisionOS]
      simp [hc, hd, hplat]
    · simp only [not_not] at hd
      by_cases h1 : mapGet m.iosMap (trimSpace code) ≠ ""
      · simp [hc, hd, h1, PlatformIOS]
      · simp only [not_not] at h1
        by_cases h2 : mapGet m.macosMap (trimSpace code) ≠ ""
        · simp [hc, hd, h1, h2, PlatformMACOS]
        · simp only [not_not] at h2
          by_cases h3 : mapGet m.tvosMap (trimSpace code) ≠ ""
          · simp [hc, hd, h1, h2, h3, PlatformTVOS]
          · simp only [not_not] at h3
            by_cases h4 : mapGet m.watchosMap (trimSpace code) ≠ ""
            · simp [hc, hd, h1, h2, h3, h4, PlatformWatchOS]
            · simp only [not_not] at h4
              by_cases h5 : mapGet m.visionosMap (trimSpace code) ≠ ""
              · simp [hc, hd, h1, h2, h3, h4, h5, PlatformVisionOS]
              · simp only [not_not] at h5
                simp [hc, hd, h1, h2, h3, h4, h5]

/-- C3: the classifier applies its literal-prefix tests in exactly the
fixed order, returns on the first match with the matched family's tag
and that family's stored value for the identifier (possibly empty), and
yields the jointly empty result when no prefix matches. -/
theorem classifier_ordered_dispatch (m : Maps) (id : String) :
    ((goStartsWith id "iPhone" || goStartsWith id "iPod") = true →
      lookupByPrefixDetailed m id = ⟨PlatformIOS, mapGet m.iosMap id⟩) ∧
    ((goStartsWith id "iPhone" || goStartsWith id "iPod") = false →
     goStartsWith id "iPad" = true →
      lookupByPrefixDetailed m id = ⟨PlatformIPADOS, mapGet m.iosMap id⟩) ∧
    ((goStartsWith id "iPhone" || goStartsWith id "iPod") = false →
     goStartsWith id "iPad" = false →
     goStartsWith id "Watch" = true →
      lookupByPrefixDetailed m id = ⟨PlatformWatchOS, mapGet m.watchosMap id⟩) ∧
    ((goStartsWith id "iPhone" || goStartsWith id "iPod") = false →
     goStartsWith id "iPad" = false →
     goStartsWith id "Watch" = false →
     goStartsWith id "AppleTV" = true →
      lookupByPrefixDetailed m id = ⟨PlatformTVOS, mapGet m.tvosMap id⟩) ∧
    ((goStartsWith id "iPhone" || goStartsWith id "iPod") = false →
     goStartsWith id "iPad" = false →
     goStartsWith id "Watch" = false →
     goStartsWith id "AppleTV" = false →
     goStartsWith id "RealityDevice" = true →
      lookupByPrefixDetailed m id = ⟨PlatformVisionOS, mapGet m.visionosMap id⟩) ∧
    ((goStartsWith id "iPhone" || goStartsWith id "iPod") = false →
     goStartsWith id "iPad" = false →
     goStartsWith id "Watch" = false →
     goStartsWith id "AppleTV" = false →
     goStartsWith id "RealityDevice" = false →
     (goStartsWith id "iMac" || goStartsWith id "Mac") = true →
      lookupByPrefixDetailed m id = ⟨PlatformMACOS, mapGet m.macosMap id⟩) ∧
    ((goStartsWith id "iPhone" || goStartsWith id "iPod") = false →
     goStartsWith id "iPad" = false →
     goStartsWith id "Watch" = false →
     goStartsWith id "AppleTV" = false →
     goStartsWith id "RealityDevice" = false →
     (goStartsWith id "iMac" || goStartsWith id "Mac") = false →
      lookupByPrefixDetailed m id = ⟨"", ""⟩) := by
  refine ⟨fun h1 => ?_, fun h1 h2 => ?_, fun h1 h2 h3 => ?_,
    fun h1 h2 h3 h4 => ?_, fun h1 h2 h3 h4 h5 => ?_,
    fun h1 h2 h3 h4 h5 h6 => ?_, fun h1 h2 h3 h4 h5 h6 => ?_⟩ <;>
  simp_all [lookupByPrefixDetailed]

/-- Witness for C3 at the tablet prefix: `"iPad16,3"` dispatches to the
tablet tag backed by the phone mapping. -/
theorem classifier_ordered_dispatch_witness :
    lookupByPrefixDetailed sampleMaps "iPad16,3" =
      ⟨PlatformIPADOS, mapGet sampleMaps.iosMap "iPad16,3"⟩ :=
  (classifier_ordered_dispatch sampleMaps "iPad16,3").2.1 (by decide) (by decide)

lemma byPrefix_platform_ipados (m : Maps) (c : String)
    (h : (lookupByPrefixDetailed m c).Platform = PlatformIPADOS) :
    goStartsWith c "iPad" = true := by
  unfold lookupByPrefixDetailed at h
  repeat' split at h
  all_goals simp_all [PlatformIOS, PlatformIPADOS, PlatformMACOS,
    PlatformTVOS, PlatformWatchOS, PlatformVisionOS]

/-- C10: the detailed auto lookup reports the tablet tag only via the
`iPad` prefix rule; the fallback scan omits the tablet family, so a
non-prefixed identifier present in the phone mapping is reported under
the phone tag. -/
theorem fallback_never_ipados (m : Maps) (code : String) :
    ((LookupDetailed m code).Platform = PlatformIPADOS →
      goStartsWith (trimSpace code) "iPad" = true) ∧
    ((goStartsWith (trimSpace code) "iPhone" || goStartsWith (trimSpace code) "iPod" ||
      goStartsWith (trimSpace code) "iPad" || goStartsWith (trimSpace code) "Watch" ||
      goStartsWith (trimSpace code) "AppleTV" ||
      goStartsWith (trimSpace code) "RealityDevice" ||
      goStartsWith (trimSpace code) "iMac" || goStartsWith (trimSpace code) "Mac") = false →
     trimSpace code ≠ "" →
     mapGet m.iosMap (trimSpace code) ≠ "" →
      LookupDetailed m code = ⟨PlatformIOS, mapGet m.iosMap (trimSpace code)⟩) := by
  constructor
  · intro h
    simp only [LookupDetailed] at h
    repeat' split at h
    · simp_all [PlatformIPADOS]
    · exact byPrefix_platform_ipados m _ h
    all_goals simp_all [PlatformIOS, PlatformIPADOS, PlatformMACOS,
      PlatformTVOS, PlatformWatchOS, PlatformVisionOS]
  · intro hnp hc hios
    simp only [Bool.or_eq_false_iff] at hnp
    obtain ⟨⟨⟨⟨⟨⟨⟨p1, p2⟩, p3⟩, p4⟩, p5⟩, p6⟩, p7⟩, p8⟩ := hnp
    simp [LookupDetailed, lookupByPrefixDetailed, hc, hios,
      p1, p2, p3, p4, p5, p6, p7, p8]

/-- Witness for C10: the non-prefixed identifier `"XR1,1"`, present only
in the phone mapping, is reported under the phone tag. -/
theorem fallback_never_ipados_witness :
    LookupDetailed sampleMaps "XR1,1" =
      ⟨PlatformIOS, mapGet sampleMaps.iosMap "XR1,1"⟩ :=
  (fallback_never_ipados sampleMaps "XR1,1").2 (by decide) (by decide) (by decide)

/-- The loader invariant: every stored display name is non-empty. -/
def noEmptyNames (m : DMap) : Prop := ∀ p ∈ m, p.2 ≠ ""

instance (m : DMap) : Decidable (noEmptyNames m) := by
  unfold noEmptyNames; infer_instance

/-- All five family mappings satisfy the loader invariant. -/
def WFMaps (mm : Maps) : Prop :=
  noEmptyNames mm.iosMap ∧ noEmptyNames mm.macosMap ∧ noEmptyNames mm.tvosMap ∧
    noEmptyNames mm.watchosMap ∧ noEmptyNames mm.visionosMap

instance (mm : Maps) : Decidable (WFMaps mm) := by
  unfold WFMaps; infer_instance

lemma containsKey_iff_mapGet_ne (m : DMap) (hm : noEmptyNames m) (k : String) :
    containsKey m k = true ↔ mapGet m k ≠ "" := by
  unfold containsKey mapGet
  cases hfind : m.find? (fun p => p.1 == k) with
  | none => simp
  | some p =>
    simp
    exact hm p (List.mem_of_find?_eq_some hfind)

/-- The spec's reference algorithm for the detailed auto lookup, written
from the spec's words: trim; empty → empty result; run the classifier
and return its result when it yields a non-empty name; otherwise scan
phone, desktop, set-top-box, wearable, spatial-computing in that fixed
order, returning the first family whose mapping contains the trimmed
identifier as a key, with its stored name; empty result otherwise. -/
def lookupAutoDetailedRef (m : Maps) (id : String) : LookupDetail :=
  let t := trimSpace id
  if t = "" then ⟨"", ""⟩
  else
    let d := lookupByPrefixDetailed m t
    if d.Name ≠ "" then d
    else if containsKey m.iosMap t then ⟨PlatformIOS, mapGet m.iosMap t⟩
    else if containsKey m.macosMap t then ⟨PlatformMACOS, mapGet m.macosMap t⟩
    else if containsKey m.tvosMap t then ⟨PlatformTVOS, mapGet m.tvosMap t⟩
    else if containsKey m.watchosMap t then ⟨PlatformWatchOS, mapGet m.watchosMap t⟩
    else if containsKey m.visionosMap t then ⟨PlatformVisionOS, mapGet m.visionosMap t⟩
    else ⟨"", ""⟩

/-- C2: over mappings satisfying the loader invariant (all stored names
non-empty, which every loaded mapping satisfies), the auto lookup and
its detailed variant compute exactly the spec's reference algorithm. -/
theorem lookup_auto_matches_reference (m : Maps) (hwf : WFMaps m) (id : String) :
    LookupDetailed m id = lookupAutoDetailedRef m id ∧
      Lookup m id = (lookupAutoDetailedRef m id).Name := by
  obtain ⟨w1, w2, w3, w4, w5⟩ := hwf
  have e1 := containsKey_iff_mapGet_ne m.iosMap w1 (trimSpace id)
  have e2 := containsKey_iff_mapGet_ne m.macosMap w2 (trimSpace id)
  have e3 := containsKey_iff_mapGet_ne m.tvosMap w3 (trimSpace id)
  have e4 := containsKey_iff_mapGet_ne m.watchosMap w4 (trimSpace id)
  have e5 := containsKey_iff_mapGet_ne m.visionosMap w5 (trimSpace id)
  have hmain : LookupDetailed m id = lookupAutoDetailedRef m id := by
    simp only [LookupDetailed, lookupAutoDetailedRef, e1, e2, e3, e4, e5]
  exact ⟨hmain, by rw [Lookup, hmain]⟩

/-- Witness for C2 at the sample state and a fallback-resolved
identifier. -/
theorem lookup_auto_matches_reference_witness :
    WFMaps sampleMaps ∧
      (LookupDetailed sampleMaps "XR1,1" = lookupAutoDetailedRef sampleMaps "XR1,1" ∧
        Lookup sampleMaps "XR1,1" = (lookupAutoDetailedRef sampleMaps "XR1,1").Name) :=
  ⟨by decide, lookup_auto_matches_reference sampleMaps (by decide) "XR1,1"⟩

/-- The spec's per-entry name resolution, written from the spec's words:
a single string resolves to its trimmed form when that is non-empty; a
sequence resolves to its first element that is a non-empty string after
trimming, scanning in original order; otherwise the name is absent. -/
def firstGoodRef : List JValue → Option String
  | [] => none
  | JValue.jstr s :: rest =>
      let t := trimSpace s
      if t = "" then firstGoodRef rest else some t
  | _ :: rest => firstGoodRef rest

/-- Spec-side resolved name of a raw entry value (`none` = absent). -/
def resolveNameRef : JValue → Option String
  | JValue.jstr s => let t := trimSpace s; if t = "" then none else some t
  | JValue.jarr items => firstGoodRef items
  | JValue.jother => none

lemma firstGoodRef_eq (l : List JValue) :
    firstGoodRef l =
      if firstNameInList l = "" then none else some (firstNameInList l) := by
  induction l with
  | nil => rfl
  | cons a rest ih =>
    cases a with
    | jstr s =>
      by_cases ht : trimSpace s = ""
      · simp [firstGoodRef, firstNameInList, ht, ih]
      · simp [firstGoodRef, firstNameInList, ht]
    | jarr items => simp [firstGoodRef, firstNameInList, ih]
    | jother => simp [firstGoodRef, firstNameInList, ih]

lemma resolveNameRef_eq (v : JValue) :
    resolveNameRef v =
      if firstModelName v = "" then none else some (firstModelName v) := by
  cases v with
  | jstr s => simp [resolveNameRef, firstModelName]
  | jarr items => simp [resolveNameRef, firstModelName, firstGoodRef_eq]
  | jother => rfl

/-- C6: the loader resolves each raw entry exactly as the spec's
resolution rule (single string → trimmed form; sequence → first
non-empty trimmed string element in order; otherwise the entry is
dropped), and consequently every value stored in a loaded family
mapping is a non-empty string. -/
theorem readDeviceMap_resolution :
    (∀ raw, readDeviceMap (some raw) =
        raw.filterMap fun kv => (resolveNameRef kv.2).map fun n => (kv.1, n)) ∧
    (∀ doc, ∀ p ∈ readDeviceMap doc, p.2 ≠ "") := by
  constructor
  · intro raw
    simp only [readDeviceMap]
    congr 1
    funext kv
    rw [resolveNameRef_eq]
    by_cases h : firstModelName kv.2 = "" <;> simp [h]
  · intro doc p hp
    cases doc with
    | none => simp [readDeviceMap] at hp
    | some raw =>
      simp only [readDeviceMap, List.mem_filterMap] at hp
      obtain ⟨kv, hkv, heq⟩ := hp
      by_cases h : firstModelName kv.2 = ""
      · simp [h] at heq
      · simp [h] at heq
        rw [← heq]
        exact h


/-- A sample raw document exercising each resolution case. -/
def sampleRaw : List (String × JValue) :=
  [("a", JValue.jstr " X "), ("b", JValue.jstr "  "),
   ("c", JValue.jarr [JValue.jother, JValue.jstr " ", JValue.jstr " N "]),
   ("d", JValue.jarr []), ("e", JValue.jother)]

/-- Witness for C6: resolution on `sampleRaw`, and a concrete stored
value shown non-empty. -/
theorem readDeviceMap_resolution_witness :
    (readDeviceMap (some sampleRaw) =
        sampleRaw.filterMap fun kv => (resolveNameRef kv.2).map fun n => (kv.1, n)) ∧
      (("a", "X") ∈ readDeviceMap (some sampleRaw) ∧ ("a", "X").2 ≠ "") :=
  ⟨readDeviceMap_resolution.1 sampleRaw,
   by decide,
   readDeviceMap_resolution.2 (some sampleRaw) ("a", "X") (by decide)⟩

/-- C7: loading never signals an error: each family mapping depends only
on that family's document and degrades to the empty mapping when the
document is unreadable or unparsable, and an unreadable or unparsable
metadata document yields the record with all four fields empty. -/
theorem loading_degrades_silently :
    (∀ d : RawDocs,
        (loadAll d).maps.iosMap = readDeviceMap d.iosDoc ∧
        (loadAll d).maps.macosMap = readDeviceMap d.macDoc ∧
        (loadAll d).maps.tvosMap = readDeviceMap d.tvDoc ∧
        (loadAll d).maps.watchosMap = readDeviceMap d.watchDoc ∧
        (loadAll d).maps.visionosMap = readDeviceMap d.visionDoc ∧
        (loadAll d).meta = readUpstreamMeta d.metaDoc) ∧
    readDeviceMap none = [] ∧
    readUpstreamMeta none = ⟨"", "", "", ""⟩ :=
  ⟨fun _ => ⟨rfl, rfl, rfl, rfl, rfl, rfl⟩, rfl, rfl⟩

/-! ### The load-once gate

`loadAll` in the source wraps its body in `loadOnce.Do` (`sync.Once`).
The gate primitive is Go standard-library code, not part of this
repository, so it is modelled from the spec: the first caller to reach
the gate runs the body; every other caller may return only once that
single run has completed; the body is never entered twice. -/

/-- Modelled from the spec: the state of the run-exactly-once load gate
(`sync.Once` together with the package-level loaded state).  `runner`
is the caller that entered the body (if any), `done` whether the body
has completed, `loaded` the populated package state (`none` = not yet
populated). -/
structure Gate where
  runner : Option Nat
  done : Bool
  loaded : Option LoadedState

/-- The gate before any caller arrives. -/
def initGate : Gate := ⟨none, false, none⟩

/-- Observable events of callers of `loadAll`: a caller enters the load
body, the body completes, a caller returns from the gate. -/
inductive Ev where
  | enter : Nat → Ev
  | complete : Nat → Ev
  | ret : Nat → Ev
deriving DecidableEq, Repr

/-- Modelled from the spec: one step of the gate.  A caller may enter
the body only while no caller has ever entered it; completion publishes
the state computed by the load body; a caller may return only after the
body has completed (callers that arrive earlier block, i.e. have no
enabled return step). -/
inductive GStep (d : RawDocs) : Gate → Ev → Gate → Prop where
  | enter (t : Nat) (g : Gate) (h : g.runner = none) :
      GStep d g (Ev.enter t) ⟨some t, g.done, g.loaded⟩
  | complete (t : Nat) (g : Gate) (h : g.runner = some t) (hd : g.done = false) :
      GStep d g (Ev.complete t) ⟨g.runner, true, some (loadAll d)⟩
  | ret (t : Nat) (g : Gate) (hd : g.done = true) :
      GStep d g (Ev.ret t) g

/-- Execution of the gate over a list of events. -/
inductive GExec (d : RawDocs) : Gate → List Ev → Gate → Prop where
  | nil (g : Gate) : GExec d g [] g
  | cons {g g1 g2 : Gate} {e : Ev} {es : List Ev} :
      GStep d g e g1 → GExec d g1 es g2 → GExec d g (e :: es) g2

/-- How many times the load body is entered in a trace. -/
def enterCount : List Ev → Nat
  | [] => 0
  | Ev.enter _ :: es => enterCount es + 1
  | _ :: es => enterCount es

/-- Gate invariant: a completed body has a recorded runner and has
published exactly the single-call load result; the published state, if
any, is that single-call result. -/
def GateInv (d : RawDocs) (g : Gate) : Prop :=
  (g.done = true → g.runner ≠ none ∧ g.loaded = some (loadAll d)) ∧
    (g.loaded ≠ none → g.loaded = some (loadAll d))

lemma gstep_inv (d : RawDocs) {g g' : Gate} {e : Ev}
    (hs : GStep d g e g') (hinv : GateInv d g) : GateInv d g' := by
  cases hs with
  | enter t g h =>
    exact ⟨fun hd => absurd h (hinv.1 hd).1, fun hl => hinv.2 hl⟩
  | complete t g h hd =>
    exact ⟨fun _ => ⟨by simp [h], rfl⟩, fun _ => rfl⟩
  | ret t g hd => exact hinv

lemma gexec_inv (d : RawDocs) {g es g'} (hx : GExec d g es g') :
    GateInv d g → GateInv d g' := by
  induction hx with
  | nil => exact id
  | cons hs _ ih => exact fun hinv => ih (gstep_inv d hs hinv)

lemma gexec_no_enter_of_runner (d : RawDocs) {g es g'} (hx : GExec d g es g') :
    g.runner ≠ none → enterCount es = 0 ∧ g'.runner = g.runner := by
  induction hx with
  | nil => exact fun _ => ⟨rfl, rfl⟩
  | cons hs _ ih =>
    intro h
    cases hs with
    | enter t g hn => exact absurd hn h
    | complete t g hr hd =>
      obtain ⟨c0, rr⟩ := ih (by simp [hr])
      exact ⟨by simpa [enterCount] using c0, by simpa using rr⟩
    | ret t g hd =>
      obtain ⟨c0, rr⟩ := ih h
      exact ⟨by simpa [enterCount] using c0, rr⟩

lemma gexec_enter_le_one (d : RawDocs) {g es g'} (hx : GExec d g es g') :
    g.runner = none → enterCount es ≤ 1 := by
  induction hx with
  | nil => exact fun _ => by simp [enterCount]
  | cons hs hx' ih =>
    intro h
    cases hs with
    | enter t g hn =>
      have h0 := (gexec_no_enter_of_runner d hx' (by simp)).1
      simp [enterCount, h0]
    | complete t g hr hd => rw [h] at hr; cases hr
    | ret t g hd => simpa [enterCount] using ih h

lemma gexec_frozen (d : RawDocs) {g es g'} (hx : GExec d g es g') :
    g.runner ≠ none → g.done = true → g' = g := by
  induction hx with
  | nil => exact fun _ _ => rfl
  | cons hs _ ih =>
    intro hr hd
    cases hs with
    | enter t g hn => exact absurd hn hr
    | complete t g h hdf => rw [hd] at hdf; cases hdf
    | ret t g _ => exact ih hr hd

lemma gexec_ret_done (d : RawDocs) {g es g'} (hx : GExec d g es g') :
    GateInv d g → ∀ t, Ev.ret t ∈ es → g'.done = true := by
  induction hx with
  | nil => intro _ t hm; cases hm
  | cons hs hx' ih =>
    intro hinv t hm
    rcases List.mem_cons.mp hm with he | hm'
    · cases hs with
      | enter t' g hn => cases he
      | complete t' g h hd => cases he
      | ret t' g hd =>
        have hfr := gexec_frozen d hx' (hinv.1 hd).1 hd
        rw [hfr]
        exact hd
    · exact ih (gstep_inv d hs hinv) t hm'

/-- C9: over the modelled run-exactly-once gate, any interleaving of
callers starting from the initial gate enters the load body at most
once; a completed load has published exactly the single-call result
`loadAll d`; every caller that returned did so with the body completed
and observed that same single-call result (and, the state being frozen
after completion, it is never mutated afterwards); and no state other
than the single-call result is ever published. -/
theorem load_once_gate (d : RawDocs) (es : List Ev) (g : Gate)
    (hx : GExec d initGate es g) :
    enterCount es ≤ 1 ∧
    (g.done = true → g.loaded = some (loadAll d)) ∧
    (∀ t, Ev.ret t ∈ es → g.done = true ∧ g.loaded = some (loadAll d)) ∧
    (g.loaded = none ∨ g.loaded = some (loadAll d)) := by
  have hinv0 : GateInv d initGate := ⟨by simp [initGate], by simp [initGate]⟩
  have hinvf : GateInv d g := gexec_inv d hx hinv0
  refine ⟨gexec_enter_le_one d hx rfl, fun hd => (hinvf.1 hd).2, ?_, ?_⟩
  · intro t hm
    have hd := gexec_ret_done d hx hinv0 t hm
    exact ⟨hd, (hinvf.1 hd).2⟩
  · by_cases hl : g.loaded = none
    · exact Or.inl hl
    · exact Or.inr (hinvf.2 hl)

/-- Concrete raw documents for the gate witness (one readable phone
document, the rest unreadable). -/
def sampleDocs : RawDocs :=
  ⟨some [("iPhone18,1", JValue.jstr "iPhone 17 Pro")], none, none, none, none,
   some ⟨"repo", "main", "abc", "2026-01-01T00:00:00Z"⟩⟩

/-- Witness for C9: a concrete two-caller trace — caller 0 enters and
completes the load, then both callers return. -/
theorem load_once_gate_witness :
    enterCount [Ev.enter 0, Ev.complete 0, Ev.ret 0, Ev.ret 1] ≤ 1 ∧
    ((⟨some 0, true, some (loadAll sampleDocs)⟩ : Gate).done = true →
      (⟨some 0, true, some (loadAll sampleDocs)⟩ : Gate).loaded = some (loadAll sampleDocs)) ∧
    (∀ t, Ev.ret t ∈ [Ev.enter 0, Ev.complete 0, Ev.ret 0, Ev.ret 1] →
      (⟨some 0, true, some (loadAll sampleDocs)⟩ : Gate).done = true ∧
        (⟨some 0, true, some (loadAll sampleDocs)⟩ : Gate).loaded = some (loadAll sampleDocs)) ∧
    ((⟨some 0, true, some (loadAll sampleDocs)⟩ : Gate).loaded = none ∨
      (⟨some 0, true, some (loadAll sampleDocs)⟩ : Gate).loaded = some (loadAll sampleDocs)) :=
  load_once_gate sampleDocs [Ev.enter 0, Ev.complete 0, Ev.ret 0, Ev.ret 1]
    ⟨some 0, true, some (loadAll sampleDocs)⟩
    (GExec.cons (GStep.enter 0 initGate rfl)
      (GExec.cons (GStep.complete 0 ⟨some 0, false, none⟩ rfl rfl)
        (GExec.cons (GStep.ret 0 ⟨some 0, true, some (loadAll sampleDocs)⟩ rfl)
          (GExec.cons (GStep.ret 1 ⟨some 0, true, some (loadAll sampleDocs)⟩ rfl)
            (GExec.nil _)))))

end DeviceModel
